import Mathlib

/-!
# Card server (`server.js`): embedding and verified properties

The server keeps two module-level variables, `cards` (an array of card objects)
and `idCounter`, and answers five JSON routes under `/api/cards`.  The routes are
embedded as pure functions from the state before the request to the state after
it together with the response; the upload filter of the multer configuration is
embedded as a function on the uploaded file's name and declared type.

Conventions of the embedding:

* a JavaScript value that is either `undefined` or a string is an
  `Option String` (`none` is `undefined`); the text fields of a multipart body
  are strings;
* `createdAt` is the instant read by `new Date()` in milliseconds since the
  epoch; the source stores its `toISOString()` text and sorts on
  `new Date(text)`, which gives the same instant back;
* `idCounter` is a natural number: the source's number is a double, whose
  increment is exact below `2^53`, so the embedding describes every run with
  fewer than `2^53` creations;
* `req.file` is what multer hands to the handler: absent, or a stored file with
  its generated `filename`; a request whose file the filter rejects never
  reaches a handler;
* `req.body` is an object, so no statement inside the `try` blocks of the create
  and update handlers throws and their `catch` branches (status 500) are not
  taken.
-/

namespace CardServer

/-! ## Data model -/

/-- A card object as the handlers build it.  The three text fields may hold
`undefined` after an update, hence `Option`. -/
structure Card where
  id : String
  title : Option String
  description : Option String
  tags : Option String
  imageUrl : String
  createdAt : Int
deriving DecidableEq

/-- The module-level variables `cards` and `idCounter`. -/
structure State where
  cards : List Card
  idCounter : Nat
deriving DecidableEq

/-- The state at start-up: `let cards = []; let idCounter = 1;`. -/
def init : State := { cards := [], idCounter := 1 }

/-- The part of `req.file` the handlers read. -/
structure File where
  filename : String
deriving DecidableEq

/-- The object `req.body`: the three text fields the handlers read, an absent
one being `none`, and whatever other fields the client sent, by name. -/
structure Body where
  title : Option String := none
  description : Option String := none
  tags : Option String := none
  other : List (String × String) := []
deriving DecidableEq

/-- A request to one of the five card routes.  `now` is the instant `new Date()`
returns while the create handler runs. -/
inductive Request where
  | list
  | get (id : String)
  | create (file : Option File) (body : Body) (now : Int)
  | update (id : String) (file : Option File) (body : Body)
  | delete (id : String)
deriving DecidableEq

/-- What a handler sends: the sorted array, one card with its status, an error
object with its status, or the success flag of delete. -/
inductive Response where
  | cardList (cards : List Card)
  | card (status : Nat) (c : Card)
  | error (status : Nat) (message : String)
  | success
deriving DecidableEq

/-! ## Handlers -/

/-- The expression `v || ''` on a value that is `undefined` or a string: the
empty string is falsy as well. -/
def orEmpty (v : Option String) : String :=
  match v with
  | none => ""
  | some s => if s = "" then "" else s

/-- The id template `card_${idCounter}`. -/
def cardId (n : Nat) : String := "card_" ++ toString n

/-- The comparator of the list route, `new Date(b.createdAt) - new Date(a.createdAt)`. -/
def compareCards (a b : Card) : Int := b.createdAt - a.createdAt

/-- The order `Array.prototype.sort` establishes: `a` may stand before `b` when
the comparator is not positive. -/
def sortsBefore (a b : Card) : Prop := compareCards a b ≤ 0

instance sortsBeforeDecidable : DecidableRel sortsBefore :=
  fun a b => inferInstanceAs (Decidable (compareCards a b ≤ 0))

/-- The call `cards.sort(comparator)`: a stable sort, here by insertion. -/
def sortCards (cards : List Card) : List Card :=
  cards.insertionSort sortsBefore

/-- The handler of `GET /api/cards`: sorts `cards` in place and sends it. -/
def getCards (s : State) : State × Response :=
  let sorted := sortCards s.cards
  ({ s with cards := sorted }, Response.cardList sorted)

/-- The handler of `GET /api/cards/:id`. -/
def getCard (s : State) (id : String) : State × Response :=
  match s.cards.find? (fun c => c.id == id) with
  | none => (s, Response.error 404 "Scheda non trovata")
  | some card => (s, Response.card 200 card)

/-- The handler of `POST /api/cards`. -/
def postCard (s : State) (file : Option File) (body : Body) (now : Int) : State × Response :=
  match file with
  | none => (s, Response.error 400 "Immagine obbligatoria")
  | some f =>
    let newCard : Card :=
      { id := cardId s.idCounter
        title := some (orEmpty body.title)
        description := some (orEmpty body.description)
        tags := some (orEmpty body.tags)
        imageUrl := "/uploads/" ++ f.filename
        createdAt := now }
    ({ cards := s.cards ++ [newCard], idCounter := s.idCounter + 1 }, Response.card 201 newCard)

/-- The object `updates` of the update handler: the three text properties are
always present (possibly `undefined`), `imageUrl` only when a file came. -/
structure Updates where
  title : Option String
  description : Option String
  tags : Option String
  imageUrl : Option String
deriving DecidableEq

/-- The spread `{ ...card, ...updates }`: every own property of `updates`
overrides the card's, also one whose value is `undefined`. -/
def spread (card : Card) (updates : Updates) : Card :=
  { id := card.id
    title := updates.title
    description := updates.description
    tags := updates.tags
    imageUrl := match updates.imageUrl with
      | none => card.imageUrl
      | some url => url
    createdAt := card.createdAt }

/-- The handler of `PUT /api/cards/:id`.  `findIndex` answering `-1` is
`List.findIdx` answering the length. -/
def putCard (s : State) (id : String) (file : Option File) (body : Body) : State × Response :=
  let index := s.cards.findIdx (fun c => c.id == id)
  if h : s.cards.length ≤ index then (s, Response.error 404 "Scheda non trovata")
  else
    let updates : Updates :=
      { title := body.title
        description := body.description
        tags := body.tags
        imageUrl := file.map (fun f => "/uploads/" ++ f.filename) }
    let merged := spread (s.cards[index]) updates
    ({ s with cards := s.cards.set index merged }, Response.card 200 merged)

/-- The handler of `DELETE /api/cards/:id`. -/
def deleteCard (s : State) (id : String) : State × Response :=
  let index := s.cards.findIdx (fun c => c.id == id)
  if s.cards.length ≤ index then (s, Response.error 404 "Scheda non trovata")
  else ({ s with cards := s.cards.eraseIdx index }, Response.success)

/-- One request served: the state after it and the response. -/
def step (s : State) (r : Request) : State × Response :=
  match r with
  | Request.list => getCards s
  | Request.get id => getCard s id
  | Request.create file body now => postCard s file body now
  | Request.update id file body => putCard s id file body
  | Request.delete id => deleteCard s id

/-- The state after a sequence of requests. -/
def run (s : State) : List Request → State
  | [] => s
  | r :: rs => run (step s r).1 rs

/-- The requests of a sequence, each paired with the response it got. -/
def log (s : State) : List Request → List (Request × Response)
  | [] => []
  | r :: rs => (r, (step s r).2) :: log (step s r).1 rs

/-- A state the server can be in: the one some sequence of requests leads to
from start-up. -/
def Reachable (s : State) : Prop := ∃ rs : List Request, run init rs = s

/-! ## Upload filter -/

/-- The registers of the loop in Node's `path.extname` (POSIX flavour); `-1`
stands for "not seen yet" as in the library. -/
structure ExtScan where
  startDot : Int := -1
  startPart : Int := 0
  endPos : Int := -1
  matchedSlash : Bool := true
  preDotState : Int := 0
deriving DecidableEq

/-- The loop of `path.extname`, which reads the path from its last character
to its first.  The argument is the part of the path not read yet, reversed, so
its head is the character at index `rest.length`; the loop's `break` is the
early exit on a slash. -/
def extnameScan : List Char → ExtScan → ExtScan
  | [], st => st
  | c :: rest, st =>
    let i : Int := rest.length
    if c = '/' then
      if st.matchedSlash then extnameScan rest st
      else { st with startPart := i + 1 }
    else
      let st1 : ExtScan :=
        if st.endPos = -1 then { st with matchedSlash := false, endPos := i + 1 } else st
      let st2 : ExtScan :=
        if c = '.' then
          if st1.startDot = -1 then { st1 with startDot := i }
          else if st1.preDotState ≠ 1 then { st1 with preDotState := 1 }
          else st1
        else if st1.startDot ≠ -1 then { st1 with preDotState := -1 }
        else st1
      extnameScan rest st2

/-- The library call `path.extname(path)`: the text from the last dot of the
last path component to its end, or the empty string when there is no dot, the
component starts with its only dot, or the component is `..`. -/
def extname (path : String) : String :=
  let cs := path.toList
  let st := extnameScan cs.reverse {}
  if st.startDot = -1 ∨ st.endPos = -1 ∨ st.preDotState = 0 ∨
      (st.preDotState = 1 ∧ st.startDot = st.endPos - 1 ∧ st.startDot = st.startPart + 1) then ""
  else String.mk ((cs.drop st.startDot.toNat).take (st.endPos - st.startDot).toNat)

/-- The method `toLowerCase()`: `A` to `Z` become `a` to `z`.  Characters
outside ASCII are kept as they are, so the embedding is exact on names whose
extension is ASCII. -/
def toLowerCase (s : String) : String := String.mk (s.toList.map Char.toLower)

/-- Whether the word `w` occurs in `s` as a run of consecutive characters. -/
def occursIn (w : List Char) : List Char → Bool
  | [] => w.isEmpty
  | c :: cs => w.isPrefixOf (c :: cs) || occursIn w cs

/-- The alternatives of the pattern `/jpeg|jpg|png|gif|webp/`. -/
def allowedTypes : List String := ["jpeg", "jpg", "png", "gif", "webp"]

/-- The call `allowedTypes.test(s)`: the pattern has no anchors, so it matches
when one of its alternatives occurs anywhere in `s`. -/
def regexTest (alternatives : List String) (s : String) : Bool :=
  alternatives.any (fun w => occursIn w.toList s.toList)

/-- The part of multer's `file` the filter and the storage read. -/
structure Upload where
  originalname : String
  mimetype : String
deriving DecidableEq

/-- What the filter hands to its callback: `cb(null, true)` accepts the file,
`cb(new Error(message))` rejects it. -/
inductive FilterResult where
  | accept
  | reject (message : String)
deriving DecidableEq

/-- The `fileFilter` of the multer configuration. -/
def fileFilter (file : Upload) : FilterResult :=
  let ext := regexTest allowedTypes (toLowerCase (extname file.originalname))
  let mime := regexTest allowedTypes file.mimetype
  if ext && mime then FilterResult.accept
  else FilterResult.reject "Solo immagini permesse"

/-- The `filename` of the disk storage: the template
`${Date.now()}-${file.originalname}`. -/
def uniqueName (now : Nat) (file : Upload) : String :=
  toString now ++ "-" ++ file.originalname

/-! ## Notions used to state the properties -/

/-- The value of a decimal digit character. -/
def digitVal (c : Char) : Nat := c.toNat - 48

/-- The number a string of decimal digits denotes. -/
def decodeDigits (cs : List Char) : Nat := cs.foldl (fun acc c => acc * 10 + digitVal c) 0

/-- The part of a card no request is meant to change: its id and its creation
instant. -/
def key (c : Card) : String × Int := (c.id, c.createdAt)

/-- The invariant of the store: ids are pairwise distinct and every id was
issued by the counter, which is past it. -/
structure WellFormed (s : State) : Prop where
  nodup : (s.cards.map Card.id).Nodup
  issued : ∀ x ∈ s.cards.map Card.id, ∃ k, 0 < k ∧ k < s.idCounter ∧ x = cardId k
  pos : 0 < s.idCounter

/-- The id a logged exchange created, when it is a successful create (status
201). -/
def createdId (e : Request × Response) : Option String :=
  match e.2 with
  | Response.card status c => if status = 201 then some c.id else none
  | _ => none

/-- The ids the successful creates of a log returned, in order. -/
def createdIds (es : List (Request × Response)) : List String := es.filterMap createdId

/-- The id `x` was returned by a create of the log and no later request of the
log is a delete of `x`. -/
def CreatedNotDeleted (es : List (Request × Response)) (x : String) : Prop :=
  ∃ pre e post, es = pre ++ e :: post ∧ createdId e = some x ∧
    ∀ e' ∈ post, e'.1 ≠ Request.delete x

/-- The create request of the specification's scenario: image `cat.png` stored
under its generated name, title `A`, description `D`, tags `T`. -/
def sampleCreate : Request :=
  Request.create (some ⟨uniqueName 1700000000000 ⟨"cat.png", "image/png"⟩⟩)
    { title := some "A", description := some "D", tags := some "T" } 1700000000005

/-- The store after `sampleCreate` on a fresh server: one card, `card_1`. -/
def sampleStore : State := run init [sampleCreate]

/-- An update body with the title `B` that also carries an `id` and a
`createdAt` field. -/
def overwritingBody : Body :=
  { title := some "B", other := [("id", "card_9"), ("createdAt", "1970-01-01T00:00:00.000Z")] }

/-! ## Checks of the embedding on concrete inputs -/

example : sampleStore =
    ⟨[⟨"card_1", some "A", some "D", some "T", "/uploads/1700000000000-cat.png", 1700000000005⟩], 2⟩ := by
  decide
example :
    (step (run init [Request.create (some ⟨"1-a.png"⟩) {} 5, Request.create (some ⟨"2-b.png"⟩) {} 9])
      Request.list).2 =
    Response.cardList [⟨"card_2", some "", some "", some "", "/uploads/2-b.png", 9⟩,
                       ⟨"card_1", some "", some "", some "", "/uploads/1-a.png", 5⟩] := by
  decide
example :
    (run init [Request.create (some ⟨"1-a.png"⟩) {} 5, Request.delete "card_1",
               Request.create (some ⟨"2-b.png"⟩) {} 9]).cards.map Card.id = ["card_2"] := by
  decide
example : (step sampleStore (Request.get "card_1")).2 =
    Response.card 200
      ⟨"card_1", some "A", some "D", some "T", "/uploads/1700000000000-cat.png", 1700000000005⟩ := by
  decide
example : (step sampleStore (Request.get "card_2")).2 =
    Response.error 404 "Scheda non trovata" := by
  decide
example : extname "cat.png.EXE" = ".EXE" := by decide
example : extname "photo.exe" = ".exe" := by decide
example : extname ".bashrc" = "" := by decide
example : extname "a/b.c/" = ".c" := by decide
example : extname "a.b/c" = "" := by decide
example : extname ".." = "" := by decide
example : extname "..." = "." := by decide
example : extname "x/.." = "" := by decide
example : extname "index." = "." := by decide
example : extname "index.coffee.md" = ".md" := by decide
example : toLowerCase ".EXE" = ".exe" := by decide
example : fileFilter ⟨"cat.PNG", "image/png"⟩ = FilterResult.accept := by decide
example : fileFilter ⟨"bundle.webpack", "image/webp"⟩ = FilterResult.accept := by decide
example : fileFilter ⟨"cat.png.EXE", "image/png"⟩ = FilterResult.reject "Solo immagini permesse" := by decide
example : uniqueName 1700000000000 ⟨"cat.png", "image/png"⟩ = "1700000000000-cat.png" := by decide

example : (step init (Request.create (some ⟨"1-cat.png"⟩) { title := some "Cat" } 5)).2
    = Response.card 201 ⟨"card_1", some "Cat", some "", some "", "/uploads/1-cat.png", 5⟩ := by
  decide


/-! ## The decimal rendering of ids is injective -/

theorem digitVal_digitChar (k : Nat) (h : k < 10) : digitVal (Nat.digitChar k) = k := by
  interval_cases k <;> rfl

theorem toDigitsCore_append (fuel : Nat) : ∀ (n : Nat) (ds : List Char),
    Nat.toDigitsCore 10 fuel n ds = Nat.toDigitsCore 10 fuel n [] ++ ds := by
  induction fuel with
  | zero => intro n ds; simp [Nat.toDigitsCore]
  | succ f ih =>
    intro n ds
    simp only [Nat.toDigitsCore]
    split
    · simp
    · rw [ih (n / 10) (Nat.digitChar (n % 10) :: ds), ih (n / 10) [Nat.digitChar (n % 10)]]
      simp

theorem decodeDigits_toDigitsCore (fuel : Nat) : ∀ n, n < fuel →
    decodeDigits (Nat.toDigitsCore 10 fuel n []) = n := by
  induction fuel with
  | zero => intro n h; omega
  | succ f ih =>
    intro n h
    simp only [Nat.toDigitsCore]
    split
    · rename_i h0
      have hn : n < 10 := by omega
      have hmod : n % 10 = n := by omega
      simp [decodeDigits, hmod, digitVal_digitChar n hn]
    · rename_i h0
      rw [toDigitsCore_append]
      have hlt : n / 10 < f := by omega
      have hrec := ih (n / 10) hlt
      simp only [decodeDigits] at hrec ⊢
      rw [List.foldl_append, hrec]
      simp [digitVal_digitChar (n % 10) (Nat.mod_lt _ (by decide))]
      omega

theorem repr_injective : Function.Injective Nat.repr := by
  intro a b h
  have h2 : Nat.toDigits 10 a = Nat.toDigits 10 b := by
    have := congrArg String.data h
    simpa [Nat.repr, List.asString] using this
  have := congrArg decodeDigits h2
  simpa [Nat.toDigits, decodeDigits_toDigitsCore] using this

theorem cardId_injective : Function.Injective cardId := by
  intro a b h
  apply repr_injective
  have := congrArg String.data h
  simp only [cardId, String.data_append] at this
  exact String.ext (List.append_cancel_left this)

/-! ## Lists of cards -/

theorem findIdx_lt_iff_mem_ids (l : List Card) (x : String) :
    l.findIdx (fun c => c.id == x) < l.length ↔ x ∈ l.map Card.id := by
  rw [List.findIdx_lt_length]
  simp only [List.mem_map, beq_iff_eq]

theorem not_mem_ids_eraseIdx (x : String) : ∀ l : List Card, (l.map Card.id).Nodup →
    x ∉ (l.eraseIdx (l.findIdx (fun c => c.id == x))).map Card.id := by
  intro l
  induction l with
  | nil => intro _; simp
  | cons c cs ih =>
    intro hnd
    rw [List.map_cons, List.nodup_cons] at hnd
    rw [List.findIdx_cons]
    by_cases hc : c.id = x
    · simp only [hc, beq_self_eq_true, cond_true, List.eraseIdx_cons_zero]
      rw [← hc]; exact hnd.1
    · have hb : (c.id == x) = false := by simpa using hc
      simp only [hb, cond_false, List.eraseIdx_cons_succ, List.map_cons, List.mem_cons, not_or]
      exact ⟨fun h => hc h.symm, ih hnd.2⟩

theorem mem_eraseIdx_of_id_ne (x : String) (c : Card) (hne : c.id ≠ x) : ∀ l : List Card,
    c ∈ l → c ∈ l.eraseIdx (l.findIdx (fun c => c.id == x)) := by
  intro l
  induction l with
  | nil => intro h; simp at h
  | cons d ds ih =>
    intro hmem
    rw [List.findIdx_cons]
    by_cases hd : d.id = x
    · simp only [hd, beq_self_eq_true, cond_true, List.eraseIdx_cons_zero]
      rcases List.mem_cons.1 hmem with h | h
      · exact absurd (h ▸ hd) hne
      · exact h
    · have hb : (d.id == x) = false := by simpa using hd
      simp only [hb, cond_false, List.eraseIdx_cons_succ, List.mem_cons]
      rcases List.mem_cons.1 hmem with h | h
      · exact Or.inl h
      · exact Or.inr (ih h)

theorem key_spread (c : Card) (u : Updates) : key (spread c u) = key c := rfl

theorem map_key_set_spread (l : List Card) (i : Nat) (h : i < l.length) (u : Updates) :
    (l.set i (spread l[i] u)).map key = l.map key := by
  rw [List.map_set, key_spread]
  apply List.ext_getElem
  · simp
  · intro n h1 h2
    rw [List.getElem_set]
    split
    · rename_i hin; subst hin; simp
    · rfl

theorem map_id_eq_map_key (l : List Card) : l.map Card.id = (l.map key).map Prod.fst := by
  simp [key, Function.comp_def]

theorem sortCards_perm (l : List Card) : (sortCards l).Perm l :=
  List.perm_insertionSort _ l

/-- When ids are pairwise distinct, the id of a stored card determines its
creation instant. -/
theorem createdAt_eq_of_id_eq (l : List Card) (hnd : (l.map Card.id).Nodup) (c : Card)
    (hc : c ∈ l) (k : String × Int) (hk : k ∈ l.map key) (hid : k.1 = c.id) :
    k.2 = c.createdAt := by
  obtain ⟨d, hd, rfl⟩ := List.mem_map.1 hk
  have hinj := List.inj_on_of_nodup_map hnd hd hc hid
  rw [hinj]; rfl

/-! ## What each handler does to the store -/

theorem getCards_state (s : State) :
    (getCards s).1 = { cards := sortCards s.cards, idCounter := s.idCounter } := rfl

theorem getCard_state (s : State) (x : String) : (getCard s x).1 = s := by
  unfold getCard; split <;> rfl

theorem postCard_state (s : State) (f : File) (b : Body) (now : Int) :
    (postCard s (some f) b now).1 =
      { cards := s.cards ++ [{ id := cardId s.idCounter, title := some (orEmpty b.title),
                               description := some (orEmpty b.description),
                               tags := some (orEmpty b.tags),
                               imageUrl := "/uploads/" ++ f.filename, createdAt := now }],
        idCounter := s.idCounter + 1 } := rfl

theorem putCard_idCounter (s : State) (x : String) (f : Option File) (b : Body) :
    (putCard s x f b).1.idCounter = s.idCounter := by
  unfold putCard; simp only; split <;> rfl

theorem putCard_keys (s : State) (x : String) (f : Option File) (b : Body) :
    (putCard s x f b).1.cards.map key = s.cards.map key := by
  unfold putCard; simp only
  split
  · rfl
  · rename_i h
    exact map_key_set_spread s.cards _ (by omega) _

theorem deleteCard_state (s : State) (x : String) :
    (deleteCard s x).1 =
      { cards := s.cards.eraseIdx (s.cards.findIdx (fun c => c.id == x)),
        idCounter := s.idCounter } := by
  unfold deleteCard; simp only
  split
  · rename_i h; rw [List.eraseIdx_of_length_le h]
  · rfl

theorem wellFormed_init : WellFormed init :=
  { nodup := by simp [init], issued := by simp [init], pos := by simp [init] }

theorem wellFormed_step (s : State) (r : Request) (h : WellFormed s) :
    WellFormed (step s r).1 := by
  cases r with
  | list =>
    have hp : ((sortCards s.cards).map Card.id).Perm (s.cards.map Card.id) :=
      (sortCards_perm s.cards).map _
    exact { nodup := hp.nodup_iff.2 h.nodup
            issued := fun x hx => h.issued x (hp.mem_iff.1 hx)
            pos := h.pos }
  | get x =>
    show WellFormed (getCard s x).1
    rw [getCard_state]; exact h
  | create file b now =>
    cases file with
    | none => exact h
    | some f =>
      show WellFormed (postCard s (some f) b now).1
      rw [postCard_state]
      refine { nodup := ?_, issued := ?_, pos := Nat.succ_pos _ }
      · simp only [List.map_append, List.map_cons, List.map_nil]
        rw [List.nodup_append]
        refine ⟨h.nodup, List.nodup_singleton _, ?_⟩
        intro a ha hb
        rw [List.mem_singleton] at hb
        obtain ⟨k, _, hk, hid⟩ := h.issued a ha
        have := cardId_injective (hid.symm.trans hb)
        omega
      · intro a ha
        simp only [List.map_append, List.map_cons, List.map_nil, List.mem_append,
          List.mem_singleton] at ha
        rcases ha with ha | ha
        · obtain ⟨k, hk0, hk, hid⟩ := h.issued a ha
          exact ⟨k, hk0, Nat.lt_succ_of_lt hk, hid⟩
        · exact ⟨s.idCounter, h.pos, Nat.lt_succ_self _, ha⟩
  | update x file b =>
    show WellFormed (putCard s x file b).1
    have hids : (putCard s x file b).1.cards.map Card.id = s.cards.map Card.id := by
      rw [map_id_eq_map_key, putCard_keys, ← map_id_eq_map_key]
    exact { nodup := by rw [hids]; exact h.nodup
            issued := by rw [hids, putCard_idCounter]; exact h.issued
            pos := by rw [putCard_idCounter]; exact h.pos }
  | delete x =>
    show WellFormed (deleteCard s x).1
    rw [deleteCard_state]
    have hsub : ((s.cards.eraseIdx (s.cards.findIdx (fun c => c.id == x))).map Card.id).Sublist
        (s.cards.map Card.id) := (List.eraseIdx_sublist _ _).map _
    exact { nodup := hsub.nodup h.nodup
            issued := fun a ha => h.issued a (hsub.subset ha)
            pos := h.pos }

theorem wellFormed_run (rs : List Request) : ∀ s, WellFormed s → WellFormed (run s rs) := by
  induction rs with
  | nil => intro s h; exact h
  | cons r rs ih => intro s h; exact ih _ (wellFormed_step s r h)

theorem wellFormed_of_reachable (s : State) (h : Reachable s) : WellFormed s := by
  obtain ⟨rs, rfl⟩ := h
  exact wellFormed_run rs init wellFormed_init

/-! ## Creating, reading and deleting one card -/

theorem getCard_of_not_mem (s : State) (x : String) (h : x ∉ s.cards.map Card.id) :
    getCard s x = (s, Response.error 404 "Scheda non trovata") := by
  have hfind : s.cards.find? (fun c => c.id == x) = none := by
    rw [List.find?_eq_none]
    intro c hc hp
    exact h (List.mem_map.2 ⟨c, hc, by simpa using hp⟩)
  unfold getCard
  rw [hfind]

theorem putCard_of_not_mem (s : State) (x : String) (h : x ∉ s.cards.map Card.id)
    (file : Option File) (body : Body) :
    putCard s x file body = (s, Response.error 404 "Scheda non trovata") := by
  have hle : s.cards.length ≤ s.cards.findIdx (fun c => c.id == x) := by
    have := (findIdx_lt_iff_mem_ids s.cards x).not.2 h
    omega
  unfold putCard
  simp only [hle, dite_true]

theorem deleteCard_of_not_mem (s : State) (x : String) (h : x ∉ s.cards.map Card.id) :
    deleteCard s x = (s, Response.error 404 "Scheda non trovata") := by
  have hle : s.cards.length ≤ s.cards.findIdx (fun c => c.id == x) := by
    have := (findIdx_lt_iff_mem_ids s.cards x).not.2 h
    omega
  unfold deleteCard
  simp only [hle, ite_true]

theorem getCard_after_postCard (s : State) (h : WellFormed s) (f : File) (b : Body) (now : Int)
    (c : Card) (hc : (postCard s (some f) b now).2 = Response.card 201 c) :
    getCard (postCard s (some f) b now).1 c.id = ((postCard s (some f) b now).1, Response.card 200 c) := by
  have hc2 : c = { id := cardId s.idCounter, title := some (orEmpty b.title),
                   description := some (orEmpty b.description), tags := some (orEmpty b.tags),
                   imageUrl := "/uploads/" ++ f.filename, createdAt := now } := by
    simp only [postCard, Response.card.injEq, true_and] at hc
    exact hc.symm
  have hold : s.cards.find? (fun d => d.id == c.id) = none := by
    rw [List.find?_eq_none]
    intro d hd hp
    obtain ⟨k, _, hk, hid⟩ := h.issued d.id (List.mem_map.2 ⟨d, hd, rfl⟩)
    have hdc : d.id = cardId s.idCounter := by rw [hc2] at hp; simpa using hp
    have := cardId_injective (hid.symm.trans hdc)
    omega
  unfold getCard
  rw [postCard_state, ← hc2]
  simp only [List.find?_append, hold, Option.none_or]
  simp

/-! ## Ids and creation instants across one request -/

theorem putCard_of_mem (s : State) (x : String) (h : x ∈ s.cards.map Card.id)
    (file : Option File) (body : Body) :
    ∃ old ∈ s.cards, old.id = x ∧
      (putCard s x file body).2 = Response.card 200
        (spread old { title := body.title, description := body.description, tags := body.tags,
                      imageUrl := file.map (fun f => "/uploads/" ++ f.filename) }) ∧
      spread old { title := body.title, description := body.description, tags := body.tags,
                   imageUrl := file.map (fun f => "/uploads/" ++ f.filename) }
        ∈ (putCard s x file body).1.cards := by
  have hlt : s.cards.findIdx (fun c => c.id == x) < s.cards.length :=
    (findIdx_lt_iff_mem_ids s.cards x).2 h
  have hnot : ¬ s.cards.length ≤ s.cards.findIdx (fun c => c.id == x) := by omega
  refine ⟨s.cards[s.cards.findIdx (fun c => c.id == x)], List.getElem_mem _, ?_, ?_, ?_⟩
  · have := List.findIdx_getElem (w := hlt)
    simpa using this
  · unfold putCard
    simp only [hnot, dite_false]
  · unfold putCard
    simp only [hnot, dite_false]
    exact List.mem_set _ _ hlt _

theorem keys_step_subset (s : State) (r : Request) (k : String × Int)
    (hk : k ∈ (step s r).1.cards.map key) :
    k ∈ s.cards.map key ∨ k.1 = cardId s.idCounter := by
  cases r with
  | list => exact Or.inl (((sortCards_perm s.cards).map key).mem_iff.1 hk)
  | get x =>
    have h1 : (step s (Request.get x)).1 = s := getCard_state s x
    rw [h1] at hk; exact Or.inl hk
  | create file b now =>
    cases file with
    | none => exact Or.inl hk
    | some f =>
      have h1 : (step s (Request.create (some f) b now)).1 = (postCard s (some f) b now).1 := rfl
      rw [h1, postCard_state] at hk
      simp only [List.map_append, List.map_cons, List.map_nil, List.mem_append,
        List.mem_singleton] at hk
      rcases hk with hk | hk
      · exact Or.inl hk
      · right; rw [hk]; rfl
  | update x file b =>
    have h1 : (step s (Request.update x file b)).1 = (putCard s x file b).1 := rfl
    rw [h1, putCard_keys] at hk; exact Or.inl hk
  | delete x =>
    have h1 : (step s (Request.delete x)).1 = (deleteCard s x).1 := rfl
    rw [h1, deleteCard_state] at hk
    exact Or.inl (((List.eraseIdx_sublist _ _).map key).subset hk)

theorem key_mem_step (s : State) (r : Request) (c : Card) (hc : c ∈ s.cards)
    (hr : r ≠ Request.delete c.id) : key c ∈ (step s r).1.cards.map key := by
  have hk : key c ∈ s.cards.map key := List.mem_map.2 ⟨c, hc, rfl⟩
  cases r with
  | list => exact ((sortCards_perm s.cards).map key).mem_iff.2 hk
  | get x =>
    have h1 : (step s (Request.get x)).1 = s := getCard_state s x
    rw [h1]; exact hk
  | create file b now =>
    cases file with
    | none => exact hk
    | some f =>
      have h1 : (step s (Request.create (some f) b now)).1 = (postCard s (some f) b now).1 := rfl
      rw [h1, postCard_state]
      simp only [List.map_append, List.mem_append]
      exact Or.inl hk
  | update x file b =>
    have h1 : (step s (Request.update x file b)).1 = (putCard s x file b).1 := rfl
    rw [h1, putCard_keys]; exact hk
  | delete x =>
    have h1 : (step s (Request.delete x)).1 = (deleteCard s x).1 := rfl
    rw [h1, deleteCard_state]
    have hne : c.id ≠ x := fun h => hr (by rw [h])
    exact List.mem_map.2 ⟨c, mem_eraseIdx_of_id_ne x c hne s.cards hc, rfl⟩

/-! ## Logs of requests -/

theorem log_map_fst (rs : List Request) : ∀ s, (log s rs).map Prod.fst = rs := by
  induction rs with
  | nil => intro s; rfl
  | cons r rs ih => intro s; simp [log, ih]

theorem createdId_create (s : State) (f : File) (b : Body) (now : Int) :
    createdId (Request.create (some f) b now, (step s (Request.create (some f) b now)).2) =
      some (cardId s.idCounter) := rfl

theorem createdId_other (s : State) (r : Request)
    (h : ∀ f b now, r ≠ Request.create (some f) b now) :
    createdId (r, (step s r).2) = none ∧ (step s r).1.idCounter = s.idCounter := by
  cases r with
  | list => exact ⟨rfl, rfl⟩
  | get x =>
    constructor
    · show createdId (_, (getCard s x).2) = none
      unfold getCard; split <;> rfl
    · show (getCard s x).1.idCounter = _
      rw [getCard_state]
  | create file b now =>
    cases file with
    | none => exact ⟨rfl, rfl⟩
    | some f => exact absurd rfl (h f b now)
  | update x file b =>
    constructor
    · show createdId (_, (putCard s x file b).2) = none
      unfold putCard; simp only; split <;> rfl
    · exact putCard_idCounter s x file b
  | delete x =>
    constructor
    · show createdId (_, (deleteCard s x).2) = none
      unfold deleteCard; simp only; split <;> rfl
    · show (deleteCard s x).1.idCounter = _
      rw [deleteCard_state]

theorem createdIds_log (rs : List Request) : ∀ s,
    createdIds (log s rs) =
      (List.range (createdIds (log s rs)).length).map (fun i => cardId (s.idCounter + i)) ∧
    (run s rs).idCounter = s.idCounter + (createdIds (log s rs)).length := by
  induction rs with
  | nil => intro s; simp [log, run, createdIds]
  | cons r rs ih =>
    intro s
    obtain ⟨ih1, ih2⟩ := ih (step s r).1
    by_cases hr : ∃ f b now, r = Request.create (some f) b now
    · obtain ⟨f, b, now, rfl⟩ := hr
      have hcons : createdIds (log s (Request.create (some f) b now :: rs)) =
          cardId s.idCounter ::
            createdIds (log (step s (Request.create (some f) b now)).1 rs) := by
        simp only [log, createdIds]
        exact List.filterMap_cons_some (createdId_create s f b now)
      have hcnt : (step s (Request.create (some f) b now)).1.idCounter = s.idCounter + 1 := rfl
      rw [hcnt] at ih1 ih2
      constructor
      · rw [hcons, List.length_cons, List.range_succ_eq_map, List.map_cons, List.map_map]
        congr 1
        conv_lhs => rw [ih1]
        apply List.map_congr_left
        intro i _
        simp only [Function.comp, Nat.succ_eq_add_one]
        congr 1; omega
      · rw [hcons, List.length_cons]
        show (run (step s (Request.create (some f) b now)).1 rs).idCounter = _
        rw [ih2]; omega
    · have hr2 : ∀ f b now, r ≠ Request.create (some f) b now :=
        fun f b now h => hr ⟨f, b, now, h⟩
      obtain ⟨hnone, hcnt⟩ := createdId_other s r hr2
      have hcons : createdIds (log s (r :: rs)) = createdIds (log (step s r).1 rs) := by
        simp only [log, createdIds]
        exact List.filterMap_cons_none hnone
      rw [hcnt] at ih1 ih2
      constructor
      · rw [hcons]; exact ih1
      · rw [hcons]; exact ih2

theorem mem_ids_step (s : State) (h : WellFormed s) (r : Request) (x : String) :
    x ∈ (step s r).1.cards.map Card.id ↔
      (x ∈ s.cards.map Card.id ∧ r ≠ Request.delete x) ∨
        createdId (r, (step s r).2) = some x := by
  by_cases hr : ∃ f b now, r = Request.create (some f) b now
  · obtain ⟨f, b, now, rfl⟩ := hr
    rw [createdId_create]
    have h1 : (step s (Request.create (some f) b now)).1 = (postCard s (some f) b now).1 := rfl
    rw [h1, postCard_state]
    simp only [List.map_append, List.map_cons, List.map_nil, List.mem_append, List.mem_singleton,
      Option.some.injEq, ne_eq, not_false_eq_true, and_true]
    constructor
    · rintro (hx | hx)
      · exact Or.inl ⟨hx, fun hne => by cases hne⟩
      · exact Or.inr hx.symm
    · rintro (hx | hx)
      · exact Or.inl hx.1
      · exact Or.inr hx.symm
  · have hr2 : ∀ f b now, r ≠ Request.create (some f) b now :=
      fun f b now h => hr ⟨f, b, now, h⟩
    rw [(createdId_other s r hr2).1]
    have hnone : ((none : Option String) = some x) ↔ False := by simp
    rw [hnone, or_false]
    cases r with
    | list =>
      have hp : ((sortCards s.cards).map Card.id).Perm (s.cards.map Card.id) :=
        (sortCards_perm s.cards).map _
      show x ∈ (sortCards s.cards).map Card.id ↔ _
      rw [hp.mem_iff]; simp
    | get y =>
      show x ∈ (getCard s y).1.cards.map Card.id ↔ _
      rw [getCard_state]; simp
    | create file b now =>
      cases file with
      | none => show x ∈ s.cards.map Card.id ↔ _; simp
      | some f => exact absurd rfl (hr2 f b now)
    | update y file b =>
      show x ∈ (putCard s y file b).1.cards.map Card.id ↔ _
      rw [map_id_eq_map_key, putCard_keys, ← map_id_eq_map_key]; simp
    | delete y =>
      show x ∈ (deleteCard s y).1.cards.map Card.id ↔ _
      rw [deleteCard_state]
      constructor
      · intro hx
        refine ⟨((List.eraseIdx_sublist _ _).map Card.id).subset hx, ?_⟩
        intro heq
        have hyx : y = x := by injection heq
        subst hyx
        exact not_mem_ids_eraseIdx y s.cards h.nodup hx
      · rintro ⟨hx, hne⟩
        obtain ⟨c, hc, hid⟩ := List.mem_map.1 hx
        have hcy : c.id ≠ y := by
          intro hcy
          apply hne
          rw [← hid, hcy]
        exact List.mem_map.2 ⟨c, mem_eraseIdx_of_id_ne y c hcy s.cards hc, hid⟩

theorem createdNotDeleted_cons (e : Request × Response) (es : List (Request × Response))
    (x : String) :
    CreatedNotDeleted (e :: es) x ↔
      (createdId e = some x ∧ ∀ e' ∈ es, e'.1 ≠ Request.delete x) ∨ CreatedNotDeleted es x := by
  constructor
  · rintro ⟨pre, e0, post, heq, hid, hpost⟩
    cases pre with
    | nil =>
      simp only [List.nil_append, List.cons.injEq] at heq
      obtain ⟨rfl, rfl⟩ := heq
      exact Or.inl ⟨hid, hpost⟩
    | cons p pre =>
      simp only [List.cons_append, List.cons.injEq] at heq
      exact Or.inr ⟨pre, e0, post, heq.2, hid, hpost⟩
  · rintro (⟨hid, hpost⟩ | ⟨pre, e0, post, heq, hid, hpost⟩)
    · exact ⟨[], e, es, rfl, hid, hpost⟩
    · exact ⟨e :: pre, e0, post, by rw [heq]; rfl, hid, hpost⟩

theorem no_delete_in_log (s : State) (rs : List Request) (x : String) :
    (∀ e' ∈ log s rs, e'.1 ≠ Request.delete x) ↔ Request.delete x ∉ rs := by
  constructor
  · intro h hmem
    rw [← log_map_fst rs s] at hmem
    obtain ⟨e, he, heq⟩ := List.mem_map.1 hmem
    exact h e he heq
  · intro h e he heq
    apply h
    rw [← log_map_fst rs s]
    exact List.mem_map.2 ⟨e, he, heq⟩

theorem mem_ids_run (rs : List Request) : ∀ s, WellFormed s → ∀ x,
    (x ∈ (run s rs).cards.map Card.id ↔
      (x ∈ s.cards.map Card.id ∧ Request.delete x ∉ rs) ∨ CreatedNotDeleted (log s rs) x) := by
  induction rs with
  | nil =>
    intro s _ x
    have hno : ¬ CreatedNotDeleted (log s []) x := by
      rintro ⟨pre, e, post, heq, _⟩
      cases pre <;> simp [log] at heq
    simp [run, hno]
  | cons r rs ih =>
    intro s h x
    have hstep := mem_ids_step s h r x
    have hrec := ih (step s r).1 (wellFormed_step s r h) x
    have hcons := createdNotDeleted_cons (r, (step s r).2) (log (step s r).1 rs) x
    have hdel := no_delete_in_log (step s r).1 rs x
    show x ∈ (run (step s r).1 rs).cards.map Card.id ↔
      _ ∨ CreatedNotDeleted ((r, (step s r).2) :: log (step s r).1 rs) x
    rw [hrec, hstep, hcons, hdel, List.mem_cons, not_or]
    constructor
    · rintro (⟨(⟨hx, hne⟩ | hnew), hnd⟩ | hcnd)
      · exact Or.inl ⟨hx, fun heq => hne heq.symm, hnd⟩
      · exact Or.inr (Or.inl ⟨hnew, hnd⟩)
      · exact Or.inr (Or.inr hcnd)
    · rintro (⟨hx, hne, hnd⟩ | ⟨hnew, hnd⟩ | hcnd)
      · exact Or.inl ⟨Or.inl ⟨hx, fun heq => hne heq.symm⟩, hnd⟩
      · exact Or.inl ⟨Or.inr hnew, hnd⟩
      · exact Or.inr hcnd

/-! ## The order of the list route -/

theorem sortsBefore_total : IsTotal Card sortsBefore :=
  ⟨fun a b => by unfold sortsBefore compareCards; omega⟩

theorem sortsBefore_trans : IsTrans Card sortsBefore :=
  ⟨fun a b c hab hbc => by unfold sortsBefore compareCards at *; omega⟩

theorem sortCards_sorted (l : List Card) :
    (sortCards l).Pairwise (fun a b => b.createdAt ≤ a.createdAt) := by
  haveI := sortsBefore_total
  haveI := sortsBefore_trans
  have h : (sortCards l).Sorted sortsBefore := List.sorted_insertionSort sortsBefore l
  refine List.Pairwise.imp ?_ h
  intro a b hab
  unfold sortsBefore compareCards at hab
  omega

/-! ## The properties of the specification -/

/-- C6: a create request with no attached file is answered with status 400 and
the error `Immagine obbligatoria`, whatever the state and whatever title,
description and tags the body carries (absent ones included); the response is
never a card and the store is as before. -/
theorem create_without_file_is_rejected (s : State) (body : Body) (now : Int) :
    step s (Request.create none body now) = (s, Response.error 400 "Immagine obbligatoria") ∧
    ∀ status c, (step s (Request.create none body now)).2 ≠ Response.card status c := by
  refine ⟨rfl, ?_⟩
  intro status c h
  cases h

/-- C10: every failing card operation leaves the card list and the id counter
as they were: an update or a delete with an id no stored card has is answered
404, a create with no file 400, and the state after each is the state before. -/
theorem failed_operations_leave_state_unchanged (s : State) (x : String)
    (h : x ∉ s.cards.map Card.id) (file : Option File) (body : Body) (now : Int) :
    step s (Request.update x file body) = (s, Response.error 404 "Scheda non trovata") ∧
    step s (Request.delete x) = (s, Response.error 404 "Scheda non trovata") ∧
    step s (Request.create none body now) = (s, Response.error 400 "Immagine obbligatoria") :=
  ⟨putCard_of_not_mem s x h file body, deleteCard_of_not_mem s x h, rfl⟩

/-- Witness of C10: in the store holding `card_1` with counter 2, an update and
a delete of `card_7` and a create without a file fail and change nothing. -/
theorem failed_operations_leave_state_unchanged_witness :
    "card_7" ∉ sampleStore.cards.map Card.id ∧
    step sampleStore (Request.update "card_7" (some ⟨"2-b.png"⟩) { title := some "B" }) =
      (sampleStore, Response.error 404 "Scheda non trovata") ∧
    step sampleStore (Request.delete "card_7") =
      (sampleStore, Response.error 404 "Scheda non trovata") ∧
    step sampleStore (Request.create none { title := some "C", description := some "d", tags := some "t" } 20) =
      (sampleStore, Response.error 400 "Immagine obbligatoria") :=
  ⟨by decide,
    failed_operations_leave_state_unchanged sampleStore "card_7" (by decide)
      (some ⟨"2-b.png"⟩) { title := some "B" } 20⟩

/-- C9: a file whose original name has the extension `.exe` in any letter case
is rejected by the upload filter with `Solo immagini permesse`, whatever
content-type it declares. -/
theorem exe_extension_is_rejected (file : Upload)
    (h : toLowerCase (extname file.originalname) = ".exe") :
    fileFilter file = FilterResult.reject "Solo immagini permesse" := by
  unfold fileFilter
  rw [h]
  have hext : regexTest allowedTypes ".exe" = false := by decide
  simp [hext]

/-- Witness of C9: `cat.png.EXE` and `photo.exe`, both declared `image/png`. -/
theorem exe_extension_is_rejected_witness :
    (toLowerCase (extname "cat.png.EXE") = ".exe" ∧
      fileFilter ⟨"cat.png.EXE", "image/png"⟩ = FilterResult.reject "Solo immagini permesse") ∧
    (toLowerCase (extname "photo.exe") = ".exe" ∧
      fileFilter ⟨"photo.exe", "image/png"⟩ = FilterResult.reject "Solo immagini permesse") :=
  ⟨⟨by decide, exe_extension_is_rejected ⟨"cat.png.EXE", "image/png"⟩ (by decide)⟩,
   ⟨by decide, exe_extension_is_rejected ⟨"photo.exe", "image/png"⟩ (by decide)⟩⟩

/-- C7, the filter on inputs outside the allow-set: the file `bundle.webpack`
declared `image/webp` is accepted although its extension `.webpack` is none of
the five allowed ones, and the file `cat.png` declared `text/x-png-notes` is
accepted although that content-type is none of the image types. -/
theorem fileFilter_accepts_outside_allow_set :
    (fileFilter ⟨"bundle.webpack", "image/webp"⟩ = FilterResult.accept ∧
      toLowerCase (extname "bundle.webpack") = ".webpack" ∧
      ".webpack" ∉ [".jpeg", ".jpg", ".png", ".gif", ".webp"]) ∧
    (fileFilter ⟨"cat.png", "text/x-png-notes"⟩ = FilterResult.accept ∧
      "text/x-png-notes" ∉ ["image/jpeg", "image/jpg", "image/png", "image/gif", "image/webp"]) := by
  decide

/-- C1, the update on a body that leaves fields out: on the store holding
`card_1` with title `A`, description `D` and tags `T`, an update carrying only
the title `B` answers a card whose description and tags are `undefined`, and an
update carrying only a new image file answers a card whose title, description
and tags are all `undefined`; `imageUrl` is kept in the first case. -/
theorem update_overwrites_absent_fields :
    step sampleStore (Request.update "card_1" none { title := some "B" }) =
      (⟨[⟨"card_1", some "B", none, none, "/uploads/1700000000000-cat.png", 1700000000005⟩], 2⟩,
        Response.card 200
          ⟨"card_1", some "B", none, none, "/uploads/1700000000000-cat.png", 1700000000005⟩) ∧
    step sampleStore (Request.update "card_1" (some ⟨"1700000000900-dog.png"⟩) {}) =
      (⟨[⟨"card_1", none, none, none, "/uploads/1700000000900-dog.png", 1700000000005⟩], 2⟩,
        Response.card 200
          ⟨"card_1", none, none, none, "/uploads/1700000000900-dog.png", 1700000000005⟩) := by
  decide

/-- C4: in a reachable state, when the delete of id `x` answers the success
flag, the get of `x` that follows answers 404 `Scheda non trovata`: a card
with id `x` was stored before the delete and none is after it. -/
theorem get_after_delete_is_not_found (s : State) (hs : Reachable s) (x : String)
    (hd : (step s (Request.delete x)).2 = Response.success) :
    (step (step s (Request.delete x)).1 (Request.get x)).2 =
      Response.error 404 "Scheda non trovata" ∧
    (∃ c ∈ s.cards, c.id = x) ∧
    ∀ c ∈ (step s (Request.delete x)).1.cards, c.id ≠ x := by
  have hwf := wellFormed_of_reachable s hs
  have hnot : x ∉ (step s (Request.delete x)).1.cards.map Card.id := by
    have h1 : (step s (Request.delete x)).1 = (deleteCard s x).1 := rfl
    rw [h1, deleteCard_state]
    exact not_mem_ids_eraseIdx x s.cards hwf.nodup
  refine ⟨?_, ?_, ?_⟩
  · show (getCard _ x).2 = _
    rw [getCard_of_not_mem _ x hnot]
  · by_contra hno
    have hx : x ∉ s.cards.map Card.id := by
      intro hmem
      obtain ⟨c, hc, hid⟩ := List.mem_map.1 hmem
      exact hno ⟨c, hc, hid⟩
    have h2 : (step s (Request.delete x)).2 = Response.error 404 "Scheda non trovata" := by
      show (deleteCard s x).2 = _
      rw [deleteCard_of_not_mem s x hx]
    rw [h2] at hd
    cases hd
  · intro c hc hid
    exact hnot (List.mem_map.2 ⟨c, hc, hid⟩)

/-- Witness of C4: the scenario of the specification, delete of `card_1` on the
store that holds it. -/
theorem get_after_delete_is_not_found_witness :
    Reachable sampleStore ∧
    (step sampleStore (Request.delete "card_1")).2 = Response.success ∧
    (step (step sampleStore (Request.delete "card_1")).1 (Request.get "card_1")).2 =
      Response.error 404 "Scheda non trovata" ∧
    (∃ c ∈ sampleStore.cards, c.id = "card_1") ∧
    ∀ c ∈ (step sampleStore (Request.delete "card_1")).1.cards, c.id ≠ "card_1" :=
  ⟨⟨[sampleCreate], rfl⟩, by decide,
    get_after_delete_is_not_found sampleStore ⟨[sampleCreate], rfl⟩ "card_1" (by decide)⟩

/-- C5: in a reachable state, a create request carrying an image file and the
title `A` answers 201 with a card, and the get of that card's id that follows
answers that same card: its title is `A`, its `imageUrl` is `/uploads/`
followed by the stored filename and so is not empty, and a description or tags
absent from the body are the empty string. -/
theorem get_after_create_returns_created_card (s : State) (hs : Reachable s) (f : File)
    (body : Body) (now : Int) (ht : body.title = some "A") :
    ∃ c, (step s (Request.create (some f) body now)).2 = Response.card 201 c ∧
      (step (step s (Request.create (some f) body now)).1 (Request.get c.id)).2 =
        Response.card 200 c ∧
      c.title = some "A" ∧
      c.imageUrl = "/uploads/" ++ f.filename ∧ c.imageUrl ≠ "" ∧
      (body.description = none → c.description = some "") ∧
      (body.tags = none → c.tags = some "") := by
  have hwf := wellFormed_of_reachable s hs
  refine ⟨{ id := cardId s.idCounter, title := some (orEmpty body.title),
            description := some (orEmpty body.description), tags := some (orEmpty body.tags),
            imageUrl := "/uploads/" ++ f.filename, createdAt := now }, rfl, ?_, ?_, rfl, ?_, ?_, ?_⟩
  · show (getCard (postCard s (some f) body now).1 _).2 = _
    rw [getCard_after_postCard s hwf f body now _ rfl]
  · simp [ht, orEmpty]
  · intro h
    have := congrArg String.data h
    simp [String.data_append] at this
  · intro h; simp [h, orEmpty]
  · intro h; simp [h, orEmpty]

/-- Witness of C5: on the store holding `card_1`, a create with title `A` and
the stored image `1700000000900-dog.png` returns `card_2`, which get returns. -/
theorem get_after_create_returns_created_card_witness :
    Reachable sampleStore ∧
    ∃ c, (step sampleStore (Request.create (some ⟨"1700000000900-dog.png"⟩)
            { title := some "A" } 1700000000901)).2 = Response.card 201 c ∧
      (step (step sampleStore (Request.create (some ⟨"1700000000900-dog.png"⟩)
            { title := some "A" } 1700000000901)).1 (Request.get c.id)).2 = Response.card 200 c ∧
      c.title = some "A" ∧
      c.imageUrl = "/uploads/" ++ "1700000000900-dog.png" ∧ c.imageUrl ≠ "" ∧
      ((none : Option String) = none → c.description = some "") ∧
      ((none : Option String) = none → c.tags = some "") :=
  ⟨⟨[sampleCreate], rfl⟩,
    get_after_create_returns_created_card sampleStore ⟨[sampleCreate], rfl⟩
      ⟨"1700000000900-dog.png"⟩ { title := some "A" } 1700000000901 rfl⟩

/-- C8: in a reachable state no request changes the id or the creation instant
of a stored card `c`.  After any request, every stored card with the id of `c`
has the creation instant of `c`; unless the request is the delete of `c`, such
a card is still stored; and an update of `c`, whatever body and file it
carries, answers and stores a card with the id and creation instant of `c`. -/
theorem id_and_createdAt_never_change (s : State) (hs : Reachable s) (r : Request) (c : Card)
    (hc : c ∈ s.cards) :
    (∀ c' ∈ (step s r).1.cards, c'.id = c.id → c'.createdAt = c.createdAt) ∧
    (r ≠ Request.delete c.id →
      ∃ c' ∈ (step s r).1.cards, c'.id = c.id ∧ c'.createdAt = c.createdAt) ∧
    (∀ file body, r = Request.update c.id file body →
      ∃ c', (step s r).2 = Response.card 200 c' ∧ c' ∈ (step s r).1.cards ∧
        c'.id = c.id ∧ c'.createdAt = c.createdAt) := by
  have hwf := wellFormed_of_reachable s hs
  have hcid : c.id ∈ s.cards.map Card.id := List.mem_map.2 ⟨c, hc, rfl⟩
  refine ⟨?_, ?_, ?_⟩
  · intro c' hc' hid
    have hk : key c' ∈ (step s r).1.cards.map key := List.mem_map.2 ⟨c', hc', rfl⟩
    rcases keys_step_subset s r (key c') hk with hold | hnew
    · exact createdAt_eq_of_id_eq s.cards hwf.nodup c hc (key c') hold hid
    · exfalso
      obtain ⟨k, _, hlt, hidk⟩ := hwf.issued c.id hcid
      have hnew2 : c'.id = cardId s.idCounter := hnew
      have := cardId_injective (hidk.symm.trans (hid.symm.trans hnew2))
      omega
  · intro hr
    obtain ⟨c', hc', hkey⟩ := List.mem_map.1 (key_mem_step s r c hc hr)
    exact ⟨c', hc', congrArg Prod.fst hkey, congrArg Prod.snd hkey⟩
  · intro file body hr
    subst hr
    obtain ⟨old, hold, hid, hresp, hmem⟩ := putCard_of_mem s c.id hcid file body
    have hoc : old = c := List.inj_on_of_nodup_map hwf.nodup hold hc hid
    subst hoc
    exact ⟨_, hresp, hmem, rfl, rfl⟩

/-- Witness of C8: an update of `card_1` with a new title, no description, no
tags, a new image and a body that also carries `id` and `createdAt` fields keeps
the id `card_1` and the creation instant. -/
theorem id_and_createdAt_never_change_witness :
    Reachable sampleStore ∧
    (⟨"card_1", some "A", some "D", some "T", "/uploads/1700000000000-cat.png", 1700000000005⟩ : Card)
      ∈ sampleStore.cards ∧
    ∃ c', (step sampleStore (Request.update "card_1" (some ⟨"1700000000900-dog.png"⟩)
            overwritingBody)).2 = Response.card 200 c' ∧
      c' ∈ (step sampleStore (Request.update "card_1" (some ⟨"1700000000900-dog.png"⟩)
            overwritingBody)).1.cards ∧
      c'.id = "card_1" ∧ c'.createdAt = 1700000000005 :=
  ⟨⟨[sampleCreate], rfl⟩, by decide,
    (id_and_createdAt_never_change sampleStore ⟨[sampleCreate], rfl⟩
      (Request.update "card_1" (some ⟨"1700000000900-dog.png"⟩) overwritingBody)
      ⟨"card_1", some "A", some "D", some "T", "/uploads/1700000000000-cat.png", 1700000000005⟩
      (by decide)).2.2 (some ⟨"1700000000900-dog.png"⟩) overwritingBody rfl⟩

/-- C3: after any sequence of requests from start-up, the successful creates
returned, in order, the ids `card_1`, `card_2`, ... (the k-th one `card_k`), so
their numbers increase strictly and no id was returned twice, whatever deletes
came in between; the counter is one more than the number of creates; and the
ids of the stored cards are pairwise distinct, each `card_k` for a `k` below
the counter. -/
theorem create_ids_are_sequential (rs : List Request) :
    createdIds (log init rs) =
      (List.range (createdIds (log init rs)).length).map (fun i => cardId (i + 1)) ∧
    (createdIds (log init rs)).Pairwise
      (fun a b => ∃ i j, a = cardId i ∧ b = cardId j ∧ i < j) ∧
    (createdIds (log init rs)).Nodup ∧
    (run init rs).idCounter = (createdIds (log init rs)).length + 1 ∧
    ((run init rs).cards.map Card.id).Nodup ∧
    ∀ c ∈ (run init rs).cards, ∃ k, 0 < k ∧ k < (run init rs).idCounter ∧ c.id = cardId k := by
  obtain ⟨h1, h2⟩ := createdIds_log rs init
  have hseq : createdIds (log init rs) =
      (List.range (createdIds (log init rs)).length).map (fun i => cardId (i + 1)) := by
    conv_lhs => rw [h1]
    apply List.map_congr_left
    intro i _
    show cardId (1 + i) = cardId (i + 1)
    rw [Nat.add_comm]
  have hpair : (createdIds (log init rs)).Pairwise
      (fun a b => ∃ i j, a = cardId i ∧ b = cardId j ∧ i < j) := by
    rw [hseq, List.pairwise_map]
    refine List.Pairwise.imp ?_ (List.pairwise_lt_range _)
    intro a b hab
    exact ⟨a + 1, b + 1, rfl, rfl, Nat.succ_lt_succ hab⟩
  have hwf := wellFormed_run rs init wellFormed_init
  refine ⟨hseq, hpair, ?_, ?_, hwf.nodup, ?_⟩
  · refine List.Pairwise.imp ?_ hpair
    rintro a b ⟨i, j, rfl, rfl, hij⟩ heq
    have := cardId_injective heq
    omega
  · rw [h2]; show 1 + _ = _; rw [Nat.add_comm]
  · intro c hc
    exact hwf.issued c.id (List.mem_map.2 ⟨c, hc, rfl⟩)

/-- C2: after any sequence of requests from the empty store, the list route
answers an array that is a permutation of the stored cards, holds each id once,
holds exactly the ids that a create returned and no later request deleted, and
is ordered by `createdAt` descending: every element is at least as recent as
every later one, in particular as its right neighbour. -/
theorem list_returns_live_cards_sorted (rs : List Request) :
    ∃ l, (step (run init rs) Request.list).2 = Response.cardList l ∧
      l.Perm (run init rs).cards ∧
      (l.map Card.id).Nodup ∧
      (∀ x, x ∈ l.map Card.id ↔ CreatedNotDeleted (log init rs) x) ∧
      l.Pairwise (fun a b => b.createdAt ≤ a.createdAt) ∧
      l.Chain' (fun a b => b.createdAt ≤ a.createdAt) := by
  have hwf := wellFormed_run rs init wellFormed_init
  have hperm := sortCards_perm (run init rs).cards
  have hsorted := sortCards_sorted (run init rs).cards
  refine ⟨sortCards (run init rs).cards, rfl, hperm, ?_, ?_, hsorted, ?_⟩
  · exact (hperm.map Card.id).nodup_iff.2 hwf.nodup
  · intro x
    rw [(hperm.map Card.id).mem_iff, mem_ids_run rs init wellFormed_init x]
    simp [init]
  · exact List.Pairwise.chain' hsorted

/-! ## What the filter and the update do on every input -/

theorem occursIn_iff_infix (w : List Char) : ∀ s : List Char, occursIn w s = true ↔ w <:+: s := by
  intro s
  induction s with
  | nil => simp [occursIn, List.isEmpty_iff]
  | cons c cs ih =>
    rw [occursIn, Bool.or_eq_true, ih, List.infix_cons_iff, List.isPrefixOf_iff_prefix]

/-- The upload filter on every file: it accepts exactly when one of the words
jpeg, jpg, png, gif, webp occurs somewhere in the lower-cased extension and one
of them occurs somewhere in the declared content-type, and otherwise rejects
with `Solo immagini permesse`. -/
theorem fileFilter_accepts_iff_words_occur (file : Upload) :
    (fileFilter file = FilterResult.accept ↔
      (∃ w ∈ allowedTypes, w.toList <:+: (toLowerCase (extname file.originalname)).toList) ∧
      (∃ w ∈ allowedTypes, w.toList <:+: file.mimetype.toList)) ∧
    (fileFilter file ≠ FilterResult.accept →
      fileFilter file = FilterResult.reject "Solo immagini permesse") := by
  have hreg : ∀ s : String, regexTest allowedTypes s = true ↔
      ∃ w ∈ allowedTypes, w.toList <:+: s.toList := by
    intro s
    simp only [regexTest, List.any_eq_true, occursIn_iff_infix]
  unfold fileFilter
  simp only
  constructor
  · rw [← hreg, ← hreg]
    split
    · rename_i h
      simpa using h
    · rename_i h
      simp only [Bool.and_eq_true] at h
      simp [h]
  · split
    · intro h; exact absurd rfl h
    · intro _; rfl

/-- The update of a stored card on every body and file: the answer is the old
card with its three text fields replaced by the body's, absent ones included,
and its `imageUrl` replaced only when a file came. -/
theorem update_replaces_text_fields (s : State) (x : String) (h : x ∈ s.cards.map Card.id)
    (file : Option File) (body : Body) :
    ∃ old ∈ s.cards, old.id = x ∧
      (step s (Request.update x file body)).2 = Response.card 200
        { id := old.id, title := body.title, description := body.description, tags := body.tags,
          imageUrl := (match file with
            | none => old.imageUrl
            | some f => "/uploads/" ++ f.filename),
          createdAt := old.createdAt } := by
  obtain ⟨old, hold, hid, hresp, _⟩ := putCard_of_mem s x h file body
  refine ⟨old, hold, hid, ?_⟩
  show (putCard s x file body).2 = _
  rw [hresp]
  cases file <;> rfl

/-- Witness of the update property: `card_1` updated with the title `B` only. -/
theorem update_replaces_text_fields_witness :
    "card_1" ∈ sampleStore.cards.map Card.id ∧
    ∃ old ∈ sampleStore.cards, old.id = "card_1" ∧
      (step sampleStore (Request.update "card_1" none { title := some "B" })).2 =
        Response.card 200
          { id := old.id, title := some "B", description := none, tags := none,
            imageUrl := old.imageUrl, createdAt := old.createdAt } :=
  ⟨by decide, update_replaces_text_fields sampleStore "card_1" (by decide) none { title := some "B" }⟩

end CardServer
